import Mathlib

/-!
Verification of the bluez-alsa core against its specification.

This file gives a shallow embedding, in Lean 4, of the parts of the
bluez-alsa daemon that the specification's claims are about:

* the PCM control-channel command dispatcher
  (`bluealsa_pcm_controller`, src/bluealsa-dbus.c lines 161-208);
* the PCM FIFO read helper (`io_thread_read_pcm`, src/io.c lines 76-100);
* the per-iteration packetisation state of the SBC, AAC and LDAC A2DP
  source I/O loops (src/io.c: `io_thread_a2dp_source_sbc`,
  `io_thread_a2dp_source_aac`, `io_thread_a2dp_source_ldac`);
* the software volume scaler (`io_thread_scale_pcm`, src/io.c lines 60-72);
* the PCM `Open` D-Bus method (`bluealsa_pcm_open`,
  src/bluealsa-dbus.c lines 210-312).

Machine integers are modelled as `Nat`/`Int` with explicit reductions
modulo 2^16 (RTP sequence numbers) and 2^32 (RTP timestamps) where the C
code relies on unsigned wrap-around.  C string constants, the RTP header
layout and `snd_pcm_scale_s16le` live in headers or files that are not
part of the analysed sources; those few definitions are modelled from the
specification and are marked as such in their doc comments.
-/

/-! ## PCM control channel (bluealsa-dbus.c, bluealsa_pcm_controller) -/

/-- Reply written back on the PCM control channel. -/
inductive CtrlReply
  | ok
  | invalid
deriving DecidableEq

/-- Transport action triggered by a control command (drain, drop, pause,
resume), or no action for an unrecognised command. -/
inductive CtrlAction
  | drain
  | drop
  | pause
  | resume
  | noAction
deriving DecidableEq

/-- C `strncmp(p, k, n) == 0`, where `p` is the raw payload buffer holding
`n` bytes (at every call site of the controller `n` is exactly the payload
length, so `p` is the payload itself) and `k` is the NUL-terminated keyword
given by its characters (no interior NUL).  `strncmp` stops at the first
difference, at the keyword's terminating NUL, or after `n` characters. -/
def strncmpZero : List Nat → List Nat → Bool
  | [], _ => true
  | c :: _, [] => c == 0
  | c :: p, d :: k => c == d && (c == 0 || strncmpZero p k)

/-- Modelled from the spec: `BLUEALSA_PCM_CTRL_DRAIN` is declared in
bluealsa-iface.h, which is not among the analysed sources; section 6 of
the spec gives the command string `"Drain"`.  ASCII bytes. -/
def BLUEALSA_PCM_CTRL_DRAIN : List Nat := [68, 114, 97, 105, 110]

/-- Modelled from the spec: the command string `"Drop"` (ASCII bytes),
see `BLUEALSA_PCM_CTRL_DRAIN`. -/
def BLUEALSA_PCM_CTRL_DROP : List Nat := [68, 114, 111, 112]

/-- Modelled from the spec: the command string `"Pause"` (ASCII bytes),
see `BLUEALSA_PCM_CTRL_DRAIN`. -/
def BLUEALSA_PCM_CTRL_PAUSE : List Nat := [80, 97, 117, 115, 101]

/-- Modelled from the spec: the command string `"Resume"` (ASCII bytes),
see `BLUEALSA_PCM_CTRL_DRAIN`. -/
def BLUEALSA_PCM_CTRL_RESUME : List Nat := [82, 101, 115, 117, 109, 101]

/-- The `G_IO_STATUS_NORMAL` branch of `bluealsa_pcm_controller`
(bluealsa-dbus.c lines 173-197): the payload read from the seqpacket
control socket is compared against the four keywords with
`strncmp(command, KEYWORD, len)`; the first match sends the corresponding
transport action and replies `"OK"`, otherwise the reply is `"Invalid"`.
The returned `Bool` is the handler's return value (`TRUE` keeps the
channel in the GLib watch, so the channel stays open). -/
def bluealsa_pcm_controller (payload : List Nat) : CtrlReply × CtrlAction × Bool :=
  if strncmpZero payload BLUEALSA_PCM_CTRL_DRAIN then (.ok, .drain, true)
  else if strncmpZero payload BLUEALSA_PCM_CTRL_DROP then (.ok, .drop, true)
  else if strncmpZero payload BLUEALSA_PCM_CTRL_PAUSE then (.ok, .pause, true)
  else if strncmpZero payload BLUEALSA_PCM_CTRL_RESUME then (.ok, .resume, true)
  else (.invalid, .noAction, true)

/-! ## PCM FIFO read (io.c, io_thread_read_pcm) -/

/-- The errno values distinguished by `io_thread_read_pcm`. -/
inductive Errno
  | eintr
  | eagain
  | ebadf
  | epipe
  | other
deriving DecidableEq

/-- Outcome of one `read(2)` call on the PCM FIFO: `data n` is a return
value of `n` bytes (`data 0` is end-of-file), `err e` is a `-1` return
with `errno = e`. -/
inductive ReadRes
  | data (bytes : Nat)
  | err (e : Errno)
deriving DecidableEq

/-- `io_thread_read_pcm` (io.c lines 76-100) driven by the sequence of
outcomes the kernel produces for its successive `read` calls.  The result
is `none` while every outcome is an `EINTR` retry, otherwise
`some (ret, released)`: `ret` is the function's return value (a positive
sample count, `0`, or `-1`) and `released` tells whether
`ba_transport_release_pcm` was invoked.  A positive byte count is divided
by `sizeof(int16_t) = 2`; a `0` return or an `EBADF` error releases the
PCM and returns `0`; any other error returns `-1` without releasing. -/
def io_thread_read_pcm : List ReadRes → Option (Int × Bool)
  | [] => none
  | .err .eintr :: rest => io_thread_read_pcm rest
  | .data n :: _ => if 0 < n then some (((n / 2 : Nat) : Int), false) else some (0, true)
  | .err e :: _ => if e = .ebadf then some (0, true) else some (-1, false)

/-! ## SBC A2DP source packetisation (io.c, io_thread_a2dp_source_sbc) -/

/-- Configuration constants fixed before the SBC source I/O loop starts
(io.c lines 390-398): `sbcPcmSamples = sbc_get_codesize(&sbc) / 2` (input
samples per SBC frame), `sbcFrameLen = sbc_get_frame_length(&sbc)`,
`mtuPayload = mtu_write - RTP_HEADER_LEN - sizeof(rtp_media_header_t)`
(payload room per packet), the channel count and the sampling rate. -/
structure SbcCfg where
  sbcPcmSamples : Nat
  sbcFrameLen : Nat
  mtuPayload : Nat
  channels : Nat
  samplerate : Nat
deriving DecidableEq

/-- One RTP packet written to the BT socket by the SBC source loop:
the sequence number and timestamp placed in the RTP header, the SBC frame
count placed in the 1-byte media header, the number of PCM frames the
payload encodes (the loop's `pcm_frames` variable), and the total number
of bytes written (`RTP_HEADER_LEN + 1` header bytes plus the payload).
The 12-byte RTP header length and the 1-byte media header are modelled
from the spec (a2dp-rtp.h is not among the analysed sources; section 4.7
gives both sizes). -/
structure RtpPacket where
  seq : Nat
  ts : Nat
  frameCount : Nat
  pcmFrames : Nat
  len : Nat
deriving DecidableEq

/-- Mutable state the SBC source loop threads from one iteration to the
next: `seq_number` (uint16), `timestamp` (uint32) and the number of
samples left in the PCM buffer after the previous iteration
(`ffb_shift(&pcm, samples - input_len)`, io.c line 578). -/
structure SbcSrcState where
  seq : Nat
  ts : Nat
  backlog : Nat
deriving DecidableEq

/-- One iteration of the SBC source loop body after a successful PCM read
of `samples` samples (io.c lines 512-579).  The encode loop packs
`min(total / sbcPcmSamples, mtuPayload / sbcFrameLen)` SBC frames (each
`sbc_encode` call consumes one codesize and emits one frame, and the loop
runs while a whole codesize of input and a whole frame of output room
remain); the packet is then written unconditionally with the incremented
sequence number, the current timestamp and the frame count, and the
timestamp advances by `pcm_frames * 10000 / samplerate` modulo 2^32. -/
def sbcSourceStep (cfg : SbcCfg) (st : SbcSrcState) (samples : Nat) :
    SbcSrcState × RtpPacket :=
  let total := st.backlog + samples
  let nf := min (total / cfg.sbcPcmSamples) (cfg.mtuPayload / cfg.sbcFrameLen)
  let consumed := nf * cfg.sbcPcmSamples
  let pcmFrames := nf * (cfg.sbcPcmSamples / cfg.channels)
  let seq2 := (st.seq + 1) % 65536
  let pkt : RtpPacket := ⟨seq2, st.ts, nf, pcmFrames, 13 + nf * cfg.sbcFrameLen⟩
  let ts2 := (st.ts + pcmFrames * 10000 / cfg.samplerate) % 4294967296
  (⟨seq2, ts2, total - consumed⟩, pkt)

/-- The SBC source loop run over a list of successful PCM read batches
(each entry is the positive sample count `io_thread_read_pcm` returned),
collecting the packets written to the BT socket in order. -/
def sbcSourceRun (cfg : SbcCfg) (st : SbcSrcState) :
    List Nat → SbcSrcState × List RtpPacket
  | [] => (st, [])
  | s :: rest =>
    let p := sbcSourceStep cfg st s
    let r := sbcSourceRun cfg p.1 rest
    (r.1, p.2 :: r.2)

/-! ## AAC A2DP source packetisation (io.c, io_thread_a2dp_source_aac) -/

/-- One RTP packet written by the AAC source loop: sequence number,
timestamp, mark bit and the number of payload bytes it carries (the
bytes on the wire are `RTP_HEADER_LEN + payloadLen`). -/
structure AacPacket where
  seq : Nat
  ts : Nat
  markbit : Bool
  payloadLen : Nat
deriving DecidableEq

/-- Fragmentation loop of the AAC source (io.c lines 1032-1067), with
explicit fuel for structural recursion; `aacFragment` supplies fuel equal
to the payload length, which suffices because every round writes at least
one payload byte whenever `maxLen > 0` (the code requires
`mtu_write > RTP_HEADER_LEN`; with `maxLen = 0` the C loop would not
terminate, and the model stops when the fuel runs out).  Each round sends
`min(remaining, maxLen)` payload bytes with the incremented sequence
number, the mark bit set exactly when the remaining payload fits in one
packet, and the timestamp fixed before the loop; writes are modelled as
complete (seqpacket sockets transmit atomically). -/
def aacFragmentAux (maxLen ts : Nat) : Nat → Nat → Nat → List AacPacket × Nat
  | 0, seq, _ => ([], seq)
  | fuel + 1, seq, payloadLen =>
    let len := min payloadLen maxLen
    let seq2 := (seq + 1) % 65536
    let pkt : AacPacket := ⟨seq2, ts, decide (payloadLen ≤ maxLen), len⟩
    if payloadLen - len = 0 then ([pkt], seq2)
    else
      let r := aacFragmentAux maxLen ts fuel seq2 (payloadLen - len)
      (pkt :: r.1, r.2)

/-- Emission of one encoded LATM payload of `payloadLen > 0` bytes
(io.c lines 1024-1067): the packets written and the final value of
`seq_number`.  `maxLen` is `payload_len_max = mtu_write - RTP_HEADER_LEN`. -/
def aacFragment (maxLen seq ts payloadLen : Nat) : List AacPacket × Nat :=
  aacFragmentAux maxLen ts payloadLen seq payloadLen

/-- State the AAC source loop threads between `aacEncEncode` batches:
`seq_number` (uint16) and `timestamp` (uint32). -/
structure AacSrcState where
  seq : Nat
  ts : Nat
deriving DecidableEq

/-- One `aacEncEncode` batch of the AAC source inner loop (io.c lines
1017-1084): the encoder consumed `consumedSamples` input samples
(`out_args.numInSamples`) and produced `outBytes` LATM bytes
(`out_args.numOutBytes`).  A positive output is emitted through the
fragmentation loop; afterwards the timestamp advances by
`(numInSamples / channels) * 10000 / samplerate` modulo 2^32. -/
def aacEncodeStep (mtuWrite channels samplerate : Nat) (st : AacSrcState)
    (consumedSamples outBytes : Nat) : AacSrcState × List AacPacket :=
  let fr := if 0 < outBytes then aacFragment (mtuWrite - 12) st.seq st.ts outBytes
    else ([], st.seq)
  let frames := consumedSamples / channels
  let ts2 := (st.ts + frames * 10000 / samplerate) % 4294967296
  (⟨fr.2, ts2⟩, fr.1)

/-- The AAC source encode loop run over a list of encoder batches (pairs
of consumed input samples and produced LATM bytes), collecting every
packet written to the BT socket in order. -/
def aacEncodeRun (mtuWrite channels samplerate : Nat) (st : AacSrcState) :
    List (Nat × Nat) → AacSrcState × List AacPacket
  | [] => (st, [])
  | (c, o) :: rest =>
    let p := aacEncodeStep mtuWrite channels samplerate st c o
    let r := aacEncodeRun mtuWrite channels samplerate p.1 rest
    (r.1, p.2 ++ r.2)

/-! ## LDAC A2DP source packetisation (io.c, io_thread_a2dp_source_ldac) -/

/-- One RTP packet written by the LDAC source loop: sequence number,
timestamp, the LDAC frame count in the 1-byte media header, and the bytes
written (`RTP_HEADER_LEN + 1 + encoded`). -/
structure LdacPacket where
  seq : Nat
  ts : Nat
  frameCount : Nat
  len : Nat
deriving DecidableEq

/-- State the LDAC source loop threads between `ldacBT_encode` calls:
`seq_number` (uint16), `timestamp` (uint32) and `ts_frames`, the samples
accumulated since the last emitted packet. -/
structure LdacSrcState where
  seq : Nat
  ts : Nat
  tsFrames : Nat
deriving DecidableEq

/-- One `ldacBT_encode` call of the LDAC source inner loop (io.c lines
1475-1523): the encoder consumed `consumedSamples` samples (`len / 2`),
produced `encoded` output bytes and reported `frameCount` LDAC frames.
When `encoded > 0` the packet is written with the rtp header as currently
stored, i.e. carrying the PREVIOUS sequence number and timestamp; only
after the write are `timestamp` (advanced by
`ts_frames / channels * 10000 / samplerate`, with `ts_frames` already
including this call's samples) and `seq_number` stored into the header
for the next packet, and `ts_frames` reset. -/
def ldacEncodeStep (channels samplerate : Nat) (st : LdacSrcState)
    (consumedSamples encoded frameCount : Nat) : LdacSrcState × Option LdacPacket :=
  let tsf := st.tsFrames + consumedSamples
  if 0 < encoded then
    (⟨(st.seq + 1) % 65536,
      (st.ts + tsf / channels * 10000 / samplerate) % 4294967296, 0⟩,
     some ⟨st.seq, st.ts, frameCount, 13 + encoded⟩)
  else
    (⟨st.seq, st.ts, tsf⟩, none)

/-- The LDAC source encode loop run over a list of encoder call results
(consumed samples, encoded bytes, frame count), collecting every packet
written to the BT socket in order. -/
def ldacEncodeRun (channels samplerate : Nat) (st : LdacSrcState) :
    List (Nat × Nat × Nat) → LdacSrcState × List LdacPacket
  | [] => (st, [])
  | (c, e, f) :: rest =>
    let p := ldacEncodeStep channels samplerate st c e f
    let r := ldacEncodeRun channels samplerate p.1 rest
    (r.1, p.2.toList ++ r.2)

/-! ## Software volume scaling (io.c, io_thread_scale_pcm) -/

/-- Modelled from the spec: saturation of an integer to the signed 16-bit
range ("applied in place on 16-bit signed PCM with saturation on
overflow", spec section 4.9). -/
def satS16 (x : ℤ) : ℤ := max (-32768) (min 32767 x)

/-- Modelled from the spec: the sample transformation of
`snd_pcm_scale_s16le` applied at interleaved index `i` (utils.c is not
among the analysed sources).  Section 4.9: multiply left/right samples by
the per-channel factor with saturation on overflow; sample `i` belongs to
channel `i % channels`, so the first factor applies to channel 0 (and to
everything when there is a single channel). -/
noncomputable def scaleSamples (channels : Nat) (ch1 ch2 : ℝ) :
    Nat → List ℤ → List ℤ
  | _, [] => []
  | i, s :: rest =>
    satS16 ⌊(if i % channels = 0 then ch1 else ch2) * (s : ℝ)⌋ ::
      scaleSamples channels ch1 ch2 (i + 1) rest

/-- Modelled from the spec: `snd_pcm_scale_s16le(buffer, samples,
channels, ch1_scale, ch2_scale)` (utils.c is not among the analysed
sources); see `scaleSamples`. -/
noncomputable def snd_pcm_scale_s16le (buffer : List ℤ) (channels : Nat)
    (ch1 ch2 : ℝ) : List ℤ :=
  scaleSamples channels ch1 ch2 0 buffer

/-- Per-channel scale factor computed by `io_thread_scale_pcm` (io.c
lines 63-69): `0` for a muted channel, otherwise
`pow(10, (-64 + 64.0 * volume / 127) / 20)`, modelled over the reals. -/
noncomputable def scaleFactor (muted : Bool) (volume : Nat) : ℝ :=
  if muted then 0 else (10 : ℝ) ^ ((-64 + 64 * (volume : ℝ) / 127) / 20)

/-- `io_thread_scale_pcm` (io.c lines 60-72): scale the PCM buffer
according to the transport's per-channel mute flags and volumes. -/
noncomputable def io_thread_scale_pcm (ch1Muted : Bool) (ch1Volume : Nat)
    (ch2Muted : Bool) (ch2Volume : Nat) (buffer : List ℤ) (channels : Nat) :
    List ℤ :=
  snd_pcm_scale_s16le buffer channels
    (scaleFactor ch1Muted ch1Volume) (scaleFactor ch2Muted ch2Volume)

/-! ## PCM Open method (bluealsa-dbus.c, bluealsa_pcm_open) -/

/-- Modelled from the spec: `BLUEALSA_PCM_MODE_SOURCE = "source"`
(bluealsa-iface.h is not among the analysed sources; section 6 gives the
mode strings).  ASCII bytes. -/
def BLUEALSA_PCM_MODE_SOURCE : List Nat := [115, 111, 117, 114, 99, 101]

/-- Modelled from the spec: `BLUEALSA_PCM_MODE_SINK = "sink"` (ASCII
bytes), see `BLUEALSA_PCM_MODE_SOURCE`. -/
def BLUEALSA_PCM_MODE_SINK : List Nat := [115, 105, 110, 107]

/-- Transport profile.  Profiles are single-bit masks in the C sources,
and every transport carries exactly one of them, so an enumeration is
faithful; `IS_BA_TRANSPORT_PROFILE_SCO` covers the four HSP/HFP bits. -/
inductive BaProfile
  | a2dpSource
  | a2dpSink
  | hspAg
  | hspHs
  | hfpAg
  | hfpHf
  | rfcomm
deriving DecidableEq

/-- `IS_BA_TRANSPORT_PROFILE_SCO(profile)`. -/
def isScoProfile : BaProfile → Bool
  | .hspAg | .hspHs | .hfpAg | .hfpHf => true
  | _ => false

/-- HFP audio codec field of an SCO transport (`HFP_CODEC_UNDEFINED`
until codec negotiation finishes). -/
inductive HfpCodec
  | undefined
  | cvsd
  | msbc
deriving DecidableEq

/-- The transport state observable by `bluealsa_pcm_open`: the profile,
the HFP codec, and the FIFO fd of each PCM endpoint (`-1` when closed;
A2DP transports use `a2dpPcmFd`, SCO transports use the speaker and
microphone endpoints). -/
structure BaTransportState where
  profile : BaProfile
  codec : HfpCodec
  a2dpPcmFd : Int
  spkPcmFd : Int
  micPcmFd : Int
deriving DecidableEq

/-- The PCM endpoint selected by `bluealsa_pcm_open`. -/
inductive PcmSel
  | a2dp
  | spk
  | mic
deriving DecidableEq

/-- FIFO fd of the selected endpoint (`pcm->fd`). -/
def pcmFdOf (t : BaTransportState) : PcmSel → Int
  | .a2dp => t.a2dpPcmFd
  | .spk => t.spkPcmFd
  | .mic => t.micPcmFd

/-- Store a new FIFO fd into the selected endpoint (`pcm->fd = ...`). -/
def setPcmFd (t : BaTransportState) (sel : PcmSel) (fd : Int) : BaTransportState :=
  match sel with
  | .a2dp => { t with a2dpPcmFd := fd }
  | .spk => { t with spkPcmFd := fd }
  | .mic => { t with micPcmFd := fd }

/-- Reply of the `Open` method: each error constructor is one
`g_dbus_method_invocation_return_error` call site of `bluealsa_pcm_open`
(`busy` is the one whose message is `strerror(EBUSY)`), and `ok` carries
the two fds passed back to the client. -/
inductive OpenReply
  | invalidMode
  | codecNotSelected
  | notSupported
  | busy
  | createFail
  | setupFail
  | acquireFail
  | ok (dataFd ctrlFd : Int)
deriving DecidableEq

/-- Whether the reply is the success reply. -/
def OpenReply.isSuccess : OpenReply → Bool
  | .ok _ _ => true
  | _ => false

/-- Outcomes of the system calls `bluealsa_pcm_open` performs: the fd
pairs produced by `pipe2` and `socketpair` (`none` on failure) and the
success of `fcntl(F_SETFL, O_NONBLOCK)` and of `t->acquire(t)`. -/
structure OpenEnv where
  pipeFds : Option (Int × Int)
  sockFds : Option (Int × Int)
  fcntlOk : Bool
  acquireOk : Bool
deriving DecidableEq

/-- Signals sent on the transport's signalling pipe during `Open`. -/
inductive BaSignal
  | pcmOpen
deriving DecidableEq

/-- Everything observable about one `bluealsa_pcm_open` call: the D-Bus
reply, the transport state after the call, the fds created during the
call, the fds closed before returning (the `fail:` loop closes every
`pcm_fds[i] != -1`), and the transport signals sent. -/
structure OpenResult where
  reply : OpenReply
  state : BaTransportState
  createdFds : List Int
  closedFds : List Int
  signals : List BaSignal
deriving DecidableEq

/-- Endpoint selection of `bluealsa_pcm_open` (bluealsa-dbus.c lines
227-251): A2DP profiles serve the matching direction with the A2DP
endpoint; SCO profiles serve source with the speaker and sink with the
microphone endpoint, failing first when no HFP codec is selected; any
other combination is not supported. -/
def bluealsa_pcm_select (t : BaTransportState) (isSource : Bool) :
    Except OpenReply PcmSel :=
  if (isSource && t.profile == .a2dpSource) || (!isSource && t.profile == .a2dpSink)
  then .ok .a2dp
  else if isScoProfile t.profile then
    if t.codec == .undefined then .error .codecNotSelected
    else .ok (if isSource then .spk else .mic)
  else .error .notSupported

/-- Continuation of `bluealsa_pcm_open` once the endpoint is selected
(bluealsa-dbus.c lines 253-312): fail busy if `pcm->fd != -1`; create the
PCM pipe and the seqpacket control pair (a `pipe2` failure creates
nothing, a `socketpair` failure leaves the two pipe fds to the cleanup
loop); store the internal pipe end in the endpoint; fail if the
non-blocking setup fails; send `TRANSPORT_PCM_OPEN`; for the A2DP source
profile acquire the BT transport, failing with every created fd closed;
on success return the external pipe end and the external socket end. -/
def bluealsa_pcm_open_withPcm (t : BaTransportState) (isSource : Bool)
    (sel : PcmSel) (env : OpenEnv) : OpenResult :=
  if pcmFdOf t sel != -1 then ⟨.busy, t, [], [], []⟩
  else
    match env.pipeFds with
    | none => ⟨.createFail, t, [], [], []⟩
    | some (p0, p1) =>
      match env.sockFds with
      | none => ⟨.createFail, t, [p0, p1], [p0, p1], []⟩
      | some (s2, s3) =>
        let t1 := setPcmFd t sel (if isSource then p0 else p1)
        let created := [p0, p1, s2, s3]
        if !env.fcntlOk then ⟨.setupFail, t1, created, created, []⟩
        else if t.profile == .a2dpSource && !env.acquireOk then
          ⟨.acquireFail, t1, created, created, [.pcmOpen]⟩
        else ⟨.ok (if isSource then p1 else p0) s3, t1, created, [], [.pcmOpen]⟩

/-- `bluealsa_pcm_open` (bluealsa-dbus.c lines 210-312): validate the
mode string, select the endpoint, then run the fd-creating continuation. -/
def bluealsa_pcm_open (t : BaTransportState) (mode : List Nat) (env : OpenEnv) :
    OpenResult :=
  let isSource := mode == BLUEALSA_PCM_MODE_SOURCE
  if !isSource && mode != BLUEALSA_PCM_MODE_SINK then ⟨.invalidMode, t, [], [], []⟩
  else
    match bluealsa_pcm_select t isSource with
    | .error e => ⟨e, t, [], [], []⟩
    | .ok sel => bluealsa_pcm_open_withPcm t isSource sel env

/-! ## Observations used to state the claims -/

/-- The consecutive uint16 sequence `s, s+1, s+2, ...` (mod 2^16) of
length `n`, starting at `s`. -/
def natSeqAt (s : Nat) : Nat → List Nat
  | 0 => []
  | n + 1 => s :: natSeqAt ((s + 1) % 65536) n

/-- The value reached after advancing a uint16 counter `n` times from
`s` (`s` itself for `n = 0`). -/
def natSeqStep (s : Nat) : Nat → Nat
  | 0 => s
  | n + 1 => natSeqStep ((s + 1) % 65536) n

/-- A list of sequence numbers in which every element is one greater
(mod 2^16) than its predecessor. -/
def isSeqRun : List Nat → Bool
  | [] => true
  | [_] => true
  | a :: b :: rest => (b == (a + 1) % 65536) && isSeqRun (b :: rest)

/-- The SBC source timestamp discipline: starting from the running
`timestamp` value `t`, every packet carries the current value and
advances it by `pcmFrames * 10000 / samplerate` modulo 2^32. -/
def tsChain (samplerate : Nat) : Nat → List RtpPacket → Bool
  | _, [] => true
  | t, p :: rest =>
    (p.ts == t) &&
      tsChain samplerate ((t + p.pcmFrames * 10000 / samplerate) % 4294967296) rest

/-! ## Theorems -/

/-- Characterisation of `strncmp(p, k, |p|) == 0` for a keyword without
interior NUL: the payload is a (possibly full, possibly empty) prefix of
the keyword, or it is the keyword followed by a NUL byte and arbitrary
trailing bytes. -/
theorem strncmpZero_iff (p : List Nat) : ∀ (k : List Nat), ¬ 0 ∈ k →
    (strncmpZero p k = true ↔ (∃ t, k = p ++ t) ∨ ∃ t, p = k ++ 0 :: t) := by
  induction p with
  | nil =>
    intro k _
    exact iff_of_true rfl (Or.inl ⟨k, rfl⟩)
  | cons c p ih =>
    intro k hk
    cases k with
    | nil =>
      constructor
      · intro hc
        have hc0 : c = 0 := by simpa [strncmpZero] using hc
        exact Or.inr ⟨p, by simp [hc0]⟩
      · rintro (⟨t, ht⟩ | ⟨t, ht⟩)
        · simp at ht
        · have hc0 : c = 0 := by
            have h2 := congrArg List.headI ht
            simpa using h2
          simp [strncmpZero, hc0]
    | cons d k2 =>
      have hd : d ≠ 0 := fun h => hk (by simp [h])
      have hk2 : ¬ 0 ∈ k2 := fun h => hk (by simp [h])
      by_cases hcd : c = d
      · have hbeq : (c == d) = true := beq_iff_eq.mpr hcd
        have hc0 : (c == 0) = false :=
          beq_eq_false_iff_ne.mpr (fun h => hd (by rw [← hcd]; exact h))
        have hstep : strncmpZero (c :: p) (d :: k2) = strncmpZero p k2 := by
          simp [strncmpZero, hbeq, hc0]
        rw [hstep, ih k2 hk2]
        constructor
        · rintro (⟨t, ht⟩ | ⟨t, ht⟩)
          · exact Or.inl ⟨t, by simp [List.cons_append, hcd, ht]⟩
          · exact Or.inr ⟨t, by simp [List.cons_append, hcd, ht]⟩
        · rintro (⟨t, ht⟩ | ⟨t, ht⟩)
          · simp only [List.cons_append, List.cons.injEq] at ht
            exact Or.inl ⟨t, ht.2⟩
          · simp only [List.cons_append, List.cons.injEq] at ht
            exact Or.inr ⟨t, ht.2⟩
      · have hbeq : (c == d) = false := beq_eq_false_iff_ne.mpr hcd
        have hstep : strncmpZero (c :: p) (d :: k2) = false := by
          simp [strncmpZero, hbeq]
        refine iff_of_false (by simp [hstep]) ?_
        rintro (⟨t, ht⟩ | ⟨t, ht⟩)
        · simp only [List.cons_append, List.cons.injEq] at ht
          exact hcd ht.1.symm
        · simp only [List.cons_append, List.cons.injEq] at ht
          exact hcd ht.1

/-- C1 (counterexample).  The claim states that any payload other than
the four exact keywords elicits the reply `"Invalid"`.  The payload
`"Dr"` (bytes `[68, 114]`) is none of the four keywords, yet the
controller replies `"OK"`: `strncmp(command, "Drain", len)` compares only
the first `len = 2` bytes, so every prefix of a keyword matches. -/
theorem bluealsa_pcm_controller_counterexample :
    (bluealsa_pcm_controller [68, 114]).1 = CtrlReply.ok ∧
    [68, 114] ≠ BLUEALSA_PCM_CTRL_DRAIN ∧
    [68, 114] ≠ BLUEALSA_PCM_CTRL_DROP ∧
    [68, 114] ≠ BLUEALSA_PCM_CTRL_PAUSE ∧
    [68, 114] ≠ BLUEALSA_PCM_CTRL_RESUME := by
  decide

/-- C1 (amended).  For every payload received on an open PCM control
channel, the daemon replies `"OK"` exactly when the payload matches one
of the keywords `"Drain"`, `"Drop"`, `"Pause"`, `"Resume"` under the
length-bounded comparison actually performed, i.e. when the payload is a
prefix (possibly the whole keyword, possibly empty) of a keyword, or is
a keyword followed by a NUL byte; every other payload is answered
`"Invalid"`.  In both cases the handler returns `TRUE`, so the channel
remains open and usable for subsequent commands. -/
theorem bluealsa_pcm_controller_reply_spec (payload : List Nat) :
    ((bluealsa_pcm_controller payload).1 = CtrlReply.ok ↔
      ∃ k ∈ [BLUEALSA_PCM_CTRL_DRAIN, BLUEALSA_PCM_CTRL_DROP,
             BLUEALSA_PCM_CTRL_PAUSE, BLUEALSA_PCM_CTRL_RESUME],
        (∃ t, k = payload ++ t) ∨ ∃ t, payload = k ++ 0 :: t) ∧
    (bluealsa_pcm_controller payload).2.2 = true := by
  have h1 := strncmpZero_iff payload BLUEALSA_PCM_CTRL_DRAIN (by decide)
  have h2 := strncmpZero_iff payload BLUEALSA_PCM_CTRL_DROP (by decide)
  have h3 := strncmpZero_iff payload BLUEALSA_PCM_CTRL_PAUSE (by decide)
  have h4 := strncmpZero_iff payload BLUEALSA_PCM_CTRL_RESUME (by decide)
  refine ⟨?_, by unfold bluealsa_pcm_controller; split_ifs <;> rfl⟩
  unfold bluealsa_pcm_controller
  split_ifs with hA hB hC hD
  · exact iff_of_true rfl ⟨BLUEALSA_PCM_CTRL_DRAIN, by simp, h1.mp hA⟩
  · exact iff_of_true rfl ⟨BLUEALSA_PCM_CTRL_DROP, by simp, h2.mp hB⟩
  · exact iff_of_true rfl ⟨BLUEALSA_PCM_CTRL_PAUSE, by simp, h3.mp hC⟩
  · exact iff_of_true rfl ⟨BLUEALSA_PCM_CTRL_RESUME, by simp, h4.mp hD⟩
  · refine iff_of_false (by decide) ?_
    rintro ⟨k, hkmem, hkcond⟩
    simp only [List.mem_cons, List.not_mem_nil, or_false] at hkmem
    rcases hkmem with rfl | rfl | rfl | rfl
    · exact hA (h1.mpr hkcond)
    · exact hB (h2.mpr hkcond)
    · exact hC (h3.mpr hkcond)
    · exact hD (h4.mpr hkcond)

/-- C2 (counterexample).  The claim states that a read failing with
`EAGAIN` makes `io_thread_read_pcm` return `0`; in fact the function
falls through to `return ret` and yields `-1` (its callers distinguish
the two: `0` enters keep-alive polling, `-1` with `errno == EAGAIN` just
continues the loop). -/
theorem io_thread_read_pcm_counterexample :
    io_thread_read_pcm [ReadRes.err Errno.eagain] = some (-1, false) ∧
    some ((-1 : Int), false) ≠ some ((0 : Int), false) := by
  decide

/-- C2 (amended).  `io_thread_read_pcm` retries the `read` on `EINTR`;
a `0` return (FIFO end-of-file) or an `EBADF` failure releases the PCM
endpoint via `ba_transport_release_pcm` and reports the client disconnect
by returning `0`; an `EAGAIN` failure returns `-1` (not `0`) without
releasing the endpoint; a successful read returns the byte count divided
by the sample size without releasing. -/
theorem io_thread_read_pcm_spec :
    (∀ tr, io_thread_read_pcm (ReadRes.err Errno.eintr :: tr) = io_thread_read_pcm tr) ∧
    (∀ tr, io_thread_read_pcm (ReadRes.data 0 :: tr) = some (0, true)) ∧
    (∀ tr, io_thread_read_pcm (ReadRes.err Errno.ebadf :: tr) = some (0, true)) ∧
    (∀ tr, io_thread_read_pcm (ReadRes.err Errno.eagain :: tr) = some (-1, false)) ∧
    (∀ tr n, 0 < n →
      io_thread_read_pcm (ReadRes.data n :: tr) = some (((n / 2 : Nat) : Int), false)) := by
  refine ⟨fun tr => rfl, fun tr => rfl, fun tr => rfl, fun tr => rfl, fun tr n hn => ?_⟩
  simp [io_thread_read_pcm, hn]

/-- A consecutive uint16 run is a sequence run. -/
theorem isSeqRun_natSeqAt (n : Nat) : ∀ s, isSeqRun (natSeqAt s n) = true := by
  induction n with
  | zero => intro s; rfl
  | succ n ih =>
    intro s
    cases n with
    | zero => rfl
    | succ m =>
      have h2 := ih ((s + 1) % 65536)
      simp only [natSeqAt] at h2 ⊢
      simp only [isSeqRun, beq_self_eq_true, Bool.true_and]
      exact h2

/-- Stepping a uint16 counter distributes over addition of counts. -/
theorem natSeqStep_add (a : Nat) : ∀ (b s : Nat),
    natSeqStep s (a + b) = natSeqStep (natSeqStep s a) b := by
  induction a with
  | zero => intro b s; rw [Nat.zero_add]; rfl
  | succ a ih =>
    intro b s
    have h1 : a + 1 + b = (a + b) + 1 := by omega
    rw [h1]
    show natSeqStep ((s + 1) % 65536) (a + b) = _
    rw [ih b ((s + 1) % 65536)]
    rfl

/-- Stepping from an incremented start yields the incremented step. -/
theorem natSeqStep_mod_inc (k : Nat) : ∀ s,
    natSeqStep ((s + 1) % 65536) k = (natSeqStep s k + 1) % 65536 := by
  induction k with
  | zero => intro s; rfl
  | succ k ih =>
    intro s
    show natSeqStep (((s + 1) % 65536 + 1) % 65536) k = _
    rw [ih ((s + 1) % 65536)]
    rfl

/-- Splitting a consecutive uint16 run at an intermediate count. -/
theorem natSeqAt_add (a : Nat) : ∀ (b s : Nat),
    natSeqAt s (a + b) = natSeqAt s a ++ natSeqAt (natSeqStep s a) b := by
  induction a with
  | zero => intro b s; rw [Nat.zero_add]; rfl
  | succ a ih =>
    intro b s
    have h1 : a + 1 + b = (a + b) + 1 := by omega
    rw [h1]
    show s :: natSeqAt ((s + 1) % 65536) (a + b) = _
    rw [ih b ((s + 1) % 65536)]
    rfl

/-- The SBC source loop emits one packet per read batch, and their
sequence numbers are the consecutive run starting one above the running
`seq_number`; the final `seq_number` is the stepped counter. -/
theorem sbcSourceRun_seq (cfg : SbcCfg) : ∀ (reads : List Nat) (st : SbcSrcState),
    ((sbcSourceRun cfg st reads).2).map RtpPacket.seq
      = natSeqAt ((st.seq + 1) % 65536) reads.length ∧
    (sbcSourceRun cfg st reads).1.seq = natSeqStep st.seq reads.length := by
  intro reads
  induction reads with
  | nil => intro st; exact ⟨rfl, rfl⟩
  | cons s rest ih =>
    intro st
    have h2 := ih ((sbcSourceStep cfg st s).1)
    refine ⟨?_, ?_⟩
    · show ((sbcSourceStep cfg st s).2).seq ::
        ((sbcSourceRun cfg (sbcSourceStep cfg st s).1 rest).2).map RtpPacket.seq = _
      rw [h2.1]
      show (st.seq + 1) % 65536 ::
        natSeqAt (((st.seq + 1) % 65536 + 1) % 65536) rest.length = _
      rfl
    · show (sbcSourceRun cfg (sbcSourceStep cfg st s).1 rest).1.seq = _
      rw [h2.2]
      rfl

/-- Sequence numbers and final counter of the AAC fragmentation loop:
the emitted packets form a consecutive run starting one above the
running `seq_number`. -/
theorem aacFragmentAux_seq (maxLen ts : Nat) : ∀ (fuel s n : Nat),
    ∃ k, ((aacFragmentAux maxLen ts fuel s n).1).map AacPacket.seq
        = natSeqAt ((s + 1) % 65536) k ∧
      (aacFragmentAux maxLen ts fuel s n).2 = natSeqStep s k := by
  intro fuel
  induction fuel with
  | zero => intro s n; exact ⟨0, rfl, rfl⟩
  | succ fuel ih =>
    intro s n
    have hunf : aacFragmentAux maxLen ts (fuel + 1) s n =
        if n - min n maxLen = 0
        then ([⟨(s + 1) % 65536, ts, decide (n ≤ maxLen), min n maxLen⟩], (s + 1) % 65536)
        else ((⟨(s + 1) % 65536, ts, decide (n ≤ maxLen), min n maxLen⟩ : AacPacket) ::
                (aacFragmentAux maxLen ts fuel ((s + 1) % 65536) (n - min n maxLen)).1,
              (aacFragmentAux maxLen ts fuel ((s + 1) % 65536) (n - min n maxLen)).2) := by
      rfl
    rw [hunf]
    by_cases h : n - min n maxLen = 0
    · rw [if_pos h]
      exact ⟨1, rfl, rfl⟩
    · rw [if_neg h]
      obtain ⟨k, hmap, hfin⟩ := ih ((s + 1) % 65536) (n - min n maxLen)
      refine ⟨k + 1, ?_, ?_⟩
      · simp only [List.map_cons, natSeqAt]
        rw [hmap]
      · rw [hfin]
        rfl

/-- Sequence discipline of one AAC encode batch: its packets (zero or
more fragments) form a consecutive run starting one above the running
`seq_number`, which ends up stepped accordingly. -/
theorem aacEncodeStep_seq (mtuWrite channels samplerate : Nat) (st : AacSrcState)
    (c o : Nat) :
    ∃ k, ((aacEncodeStep mtuWrite channels samplerate st c o).2).map AacPacket.seq
        = natSeqAt ((st.seq + 1) % 65536) k ∧
      (aacEncodeStep mtuWrite channels samplerate st c o).1.seq = natSeqStep st.seq k := by
  by_cases h : 0 < o
  · obtain ⟨k, hmap, hfin⟩ := aacFragmentAux_seq (mtuWrite - 12) st.ts o st.seq o
    refine ⟨k, ?_, ?_⟩
    · simpa [aacEncodeStep, aacFragment, h] using hmap
    · simpa [aacEncodeStep, aacFragment, h] using hfin
  · refine ⟨0, ?_, ?_⟩
    · simp [aacEncodeStep, h]
      rfl
    · simp [aacEncodeStep, h]
      rfl

/-- Sequence discipline of the whole AAC source encode loop. -/
theorem aacEncodeRun_seq (mtuWrite channels samplerate : Nat) :
    ∀ (batches : List (Nat × Nat)) (st : AacSrcState),
    ∃ k, ((aacEncodeRun mtuWrite channels samplerate st batches).2).map AacPacket.seq
        = natSeqAt ((st.seq + 1) % 65536) k ∧
      (aacEncodeRun mtuWrite channels samplerate st batches).1.seq
        = natSeqStep st.seq k := by
  intro batches
  induction batches with
  | nil => intro st; exact ⟨0, rfl, rfl⟩
  | cons b rest ih =>
    intro st
    obtain ⟨c, o⟩ := b
    obtain ⟨k1, hmap1, hfin1⟩ := aacEncodeStep_seq mtuWrite channels samplerate st c o
    obtain ⟨k2, hmap2, hfin2⟩ :=
      ih ((aacEncodeStep mtuWrite channels samplerate st c o).1)
    refine ⟨k1 + k2, ?_, ?_⟩
    · show ((aacEncodeStep mtuWrite channels samplerate st c o).2 ++
        (aacEncodeRun mtuWrite channels samplerate
          (aacEncodeStep mtuWrite channels samplerate st c o).1 rest).2).map AacPacket.seq
        = _
      rw [List.map_append, hmap1, hmap2, hfin1,
        natSeqAt_add k1 k2 ((st.seq + 1) % 65536), natSeqStep_mod_inc k1 st.seq]
    · show (aacEncodeRun mtuWrite channels samplerate
        (aacEncodeStep mtuWrite channels samplerate st c o).1 rest).1.seq = _
      rw [hfin2, hfin1, natSeqStep_add k1 k2 st.seq]

/-- Sequence discipline of the LDAC source encode loop: the emitted
packets form a consecutive run starting AT the running `seq_number`
(the LDAC loop writes the header before incrementing, unlike SBC/AAC). -/
theorem ldacEncodeRun_seq (channels samplerate : Nat) :
    ∀ (calls : List (Nat × Nat × Nat)) (st : LdacSrcState),
    ∃ k, ((ldacEncodeRun channels samplerate st calls).2).map LdacPacket.seq
        = natSeqAt st.seq k ∧
      (ldacEncodeRun channels samplerate st calls).1.seq = natSeqStep st.seq k := by
  intro calls
  induction calls with
  | nil => intro st; exact ⟨0, rfl, rfl⟩
  | cons b rest ih =>
    intro st
    obtain ⟨c, e, f⟩ := b
    by_cases he : 0 < e
    · have hstep : ldacEncodeStep channels samplerate st c e f =
          (⟨(st.seq + 1) % 65536,
            (st.ts + (st.tsFrames + c) / channels * 10000 / samplerate) % 4294967296, 0⟩,
           some ⟨st.seq, st.ts, f, 13 + e⟩) := by
        simp [ldacEncodeStep, he]
      obtain ⟨k, hmap, hfin⟩ := ih ⟨(st.seq + 1) % 65536,
        (st.ts + (st.tsFrames + c) / channels * 10000 / samplerate) % 4294967296, 0⟩
      refine ⟨k + 1, ?_, ?_⟩
      · show (((ldacEncodeStep channels samplerate st c e f).2).toList ++
          (ldacEncodeRun channels samplerate
            (ldacEncodeStep channels samplerate st c e f).1 rest).2).map LdacPacket.seq
          = _
        rw [hstep]
        show st.seq :: ((ldacEncodeRun channels samplerate ⟨(st.seq + 1) % 65536,
          (st.ts + (st.tsFrames + c) / channels * 10000 / samplerate) % 4294967296, 0⟩
            rest).2).map LdacPacket.seq = _
        rw [hmap]
        rfl
      · show (ldacEncodeRun channels samplerate
          (ldacEncodeStep channels samplerate st c e f).1 rest).1.seq = _
        rw [hstep]
        show (ldacEncodeRun channels samplerate ⟨(st.seq + 1) % 65536,
          (st.ts + (st.tsFrames + c) / channels * 10000 / samplerate) % 4294967296, 0⟩
            rest).1.seq = _
        rw [hfin]
        rfl
    · have hstep : ldacEncodeStep channels samplerate st c e f =
          (⟨st.seq, st.ts, st.tsFrames + c⟩, none) := by
        simp [ldacEncodeStep, he]
      obtain ⟨k, hmap, hfin⟩ := ih ⟨st.seq, st.ts, st.tsFrames + c⟩
      refine ⟨k, ?_, ?_⟩
      · show (((ldacEncodeStep channels samplerate st c e f).2).toList ++
          (ldacEncodeRun channels samplerate
            (ldacEncodeStep channels samplerate st c e f).1 rest).2).map LdacPacket.seq
          = _
        rw [hstep]
        show ((ldacEncodeRun channels samplerate ⟨st.seq, st.ts, st.tsFrames + c⟩
          rest).2).map LdacPacket.seq = _
        rw [hmap]
      · show (ldacEncodeRun channels samplerate
          (ldacEncodeStep channels samplerate st c e f).1 rest).1.seq = _
        rw [hstep]
        show (ldacEncodeRun channels samplerate ⟨st.seq, st.ts, st.tsFrames + c⟩
          rest).1.seq = _
        rw [hfin]

/-- C3.  For every A2DP source transport (SBC, AAC, LDAC), the sequence
numbers written into successive emitted RTP packets form the sequence
`s, s+1, s+2, ...` modulo 65536: every packet written to the BT socket
carries a sequence number exactly one (mod 2^16) greater than the
previous packet's, over any run of the respective source loop. -/
theorem a2dp_rtp_seq_monotonic :
    (∀ (cfg : SbcCfg) (st : SbcSrcState) (reads : List Nat),
      isSeqRun (((sbcSourceRun cfg st reads).2).map RtpPacket.seq) = true) ∧
    (∀ (mtuWrite channels samplerate : Nat) (st : AacSrcState)
        (batches : List (Nat × Nat)),
      isSeqRun (((aacEncodeRun mtuWrite channels samplerate st batches).2).map
        AacPacket.seq) = true) ∧
    (∀ (channels samplerate : Nat) (st : LdacSrcState)
        (calls : List (Nat × Nat × Nat)),
      isSeqRun (((ldacEncodeRun channels samplerate st calls).2).map
        LdacPacket.seq) = true) := by
  refine ⟨?_, ?_, ?_⟩
  · intro cfg st reads
    rw [(sbcSourceRun_seq cfg reads st).1]
    exact isSeqRun_natSeqAt reads.length _
  · intro mtuWrite channels samplerate st batches
    obtain ⟨k, hmap, _⟩ := aacEncodeRun_seq mtuWrite channels samplerate batches st
    rw [hmap]
    exact isSeqRun_natSeqAt k _
  · intro channels samplerate st calls
    obtain ⟨k, hmap, _⟩ := ldacEncodeRun_seq channels samplerate calls st
    rw [hmap]
    exact isSeqRun_natSeqAt k _

/-- The SBC source loop respects the timestamp discipline: every packet
carries the running `timestamp` and advances it by its own
`pcm_frames * 10000 / samplerate` modulo 2^32. -/
theorem sbcSourceRun_tsChain (cfg : SbcCfg) : ∀ (reads : List Nat) (st : SbcSrcState),
    tsChain cfg.samplerate st.ts ((sbcSourceRun cfg st reads).2) = true := by
  intro reads
  induction reads with
  | nil => intro st; rfl
  | cons s rest ih =>
    intro st
    show tsChain cfg.samplerate st.ts ((sbcSourceStep cfg st s).2 ::
      (sbcSourceRun cfg (sbcSourceStep cfg st s).1 rest).2) = true
    simp only [tsChain, Bool.and_eq_true]
    exact ⟨beq_self_eq_true st.ts, ih ((sbcSourceStep cfg st s).1)⟩

/-- Unfolding the timestamp discipline at an index: each packet's
timestamp is its predecessor's advanced by the predecessor's
`pcm_frames * 10000 / samplerate` modulo 2^32. -/
theorem tsChain_get (sr : Nat) : ∀ (l : List RtpPacket) (t : Nat),
    tsChain sr t l = true →
    ∀ i (h1 : i + 1 < l.length) (h0 : i < l.length),
      (l.get ⟨i + 1, h1⟩).ts
        = ((l.get ⟨i, h0⟩).ts + (l.get ⟨i, h0⟩).pcmFrames * 10000 / sr)
            % 4294967296 := by
  intro l
  induction l with
  | nil => intro t _ i h1 h0; exact absurd h1 (by simp)
  | cons p rest ih =>
    intro t hchain i h1 h0
    simp only [tsChain, Bool.and_eq_true, beq_iff_eq] at hchain
    obtain ⟨hp, hrest⟩ := hchain
    cases i with
    | zero =>
      cases rest with
      | nil => simp at h1
      | cons q rest2 =>
        simp only [tsChain, Bool.and_eq_true, beq_iff_eq] at hrest
        show q.ts = (p.ts + p.pcmFrames * 10000 / sr) % 4294967296
        rw [hp]
        exact hrest.1
    | succ j =>
      have h1r : j + 1 < rest.length := by simpa using h1
      have h0r : j < rest.length := by omega
      exact ih ((t + p.pcmFrames * 10000 / sr) % 4294967296) hrest j h1r h0r

/-- C4.  For a sustained A2DP source stream at rate `R` in which every
packet carries `F` PCM frames, consecutive RTP timestamps differ by
exactly `F * 10000 / R` in truncating integer division (modulo the
uint32 wrap of the timestamp counter); equivalently, after each encode
batch of `pcm_frames` frames the timestamp counter advances by
`pcm_frames * 10000 / samplerate` — stated for the SBC source run, the
SBC source step and the AAC source encode step. -/
theorem a2dp_rtp_timestamp_cadence :
    (∀ (cfg : SbcCfg) (st : SbcSrcState) (reads : List Nat) (F : Nat),
      ((sbcSourceRun cfg st reads).2).map RtpPacket.pcmFrames
          = List.replicate (((sbcSourceRun cfg st reads).2).length) F →
      ∀ i (h1 : i + 1 < ((sbcSourceRun cfg st reads).2).length)
          (h0 : i < ((sbcSourceRun cfg st reads).2).length),
        (((sbcSourceRun cfg st reads).2).get ⟨i + 1, h1⟩).ts
          = ((((sbcSourceRun cfg st reads).2).get ⟨i, h0⟩).ts
              + F * 10000 / cfg.samplerate) % 4294967296) ∧
    (∀ (cfg : SbcCfg) (st : SbcSrcState) (samples : Nat),
      ((sbcSourceStep cfg st samples).1).ts
        = (st.ts + ((sbcSourceStep cfg st samples).2).pcmFrames * 10000
            / cfg.samplerate) % 4294967296) ∧
    (∀ (mtuWrite channels samplerate : Nat) (st : AacSrcState) (c o : Nat),
      ((aacEncodeStep mtuWrite channels samplerate st c o).1).ts
        = (st.ts + c / channels * 10000 / samplerate) % 4294967296) := by
  refine ⟨?_, fun cfg st samples => rfl, fun mtuWrite channels samplerate st c o => rfl⟩
  intro cfg st reads F hmap i h1 h0
  have hchain := sbcSourceRun_tsChain cfg reads st
  have hstep := tsChain_get cfg.samplerate ((sbcSourceRun cfg st reads).2) st.ts hchain i h1 h0
  have hall := (List.eq_replicate_iff.mp hmap).2
  have hF : (((sbcSourceRun cfg st reads).2).get ⟨i, h0⟩).pcmFrames = F :=
    hall _ (List.mem_map_of_mem RtpPacket.pcmFrames (List.get_mem _ _ _))
  rw [hstep, hF]

/-- C9.  The SBC source loop writes exactly one RTP packet per PCM read
batch that delivers data; when the accumulated samples are fewer than one
SBC codesize the encode loop packs zero frames and the packet is just the
12-byte RTP header plus the 1-byte media header (13 bytes) with
`frame_count = 0`, and the sequence number is still incremented for
it. -/
theorem sbc_source_empty_packet (cfg : SbcCfg) (st : SbcSrcState) (samples : Nat)
    (_h1 : 0 < samples) (h2 : st.backlog + samples < cfg.sbcPcmSamples) :
    (sbcSourceStep cfg st samples).2 = ⟨(st.seq + 1) % 65536, st.ts, 0, 0, 13⟩ ∧
    ∀ (st2 : SbcSrcState) (reads : List Nat),
      ((sbcSourceRun cfg st2 reads).2).length = reads.length := by
  constructor
  · have hdiv : (st.backlog + samples) / cfg.sbcPcmSamples = 0 := Nat.div_eq_of_lt h2
    simp [sbcSourceStep, hdiv]
  · intro st2 reads
    induction reads generalizing st2 with
    | nil => rfl
    | cons s rest ih =>
      show ((sbcSourceStep cfg st2 s).2 ::
        (sbcSourceRun cfg (sbcSourceStep cfg st2 s).1 rest).2).length = rest.length + 1
      simpa using ih ((sbcSourceStep cfg st2 s).1)

/-- C9 (witness).  A concrete small-batch instance: codesize 256 samples,
backlog 0, a read of 100 samples; the packet is the bare 13-byte header
with frame count 0 and the incremented sequence number. -/
theorem sbc_source_empty_packet_witness :
    0 < 100 ∧
    (⟨10, 5, 0⟩ : SbcSrcState).backlog + 100
      < (⟨256, 70, 600, 2, 44100⟩ : SbcCfg).sbcPcmSamples ∧
    ((sbcSourceStep ⟨256, 70, 600, 2, 44100⟩ ⟨10, 5, 0⟩ 100).2
        = ⟨(10 + 1) % 65536, 5, 0, 0, 13⟩ ∧
      ∀ (st2 : SbcSrcState) (reads : List Nat),
        ((sbcSourceRun ⟨256, 70, 600, 2, 44100⟩ st2 reads).2).length
          = reads.length) :=
  ⟨by decide, by decide,
    sbc_source_empty_packet ⟨256, 70, 600, 2, 44100⟩ ⟨10, 5, 0⟩ 100
      (by decide) (by decide)⟩

/-- C4 (witness).  A concrete sustained run: codesize 4 samples, 2
channels, rate 10000, two reads of 4 samples; both packets carry 2 PCM
frames and the second timestamp is the first advanced by
`2 * 10000 / 10000`. -/
theorem a2dp_rtp_timestamp_cadence_witness :
    ((sbcSourceRun ⟨4, 10, 100, 2, 10000⟩ ⟨0, 0, 0⟩ [4, 4]).2).map RtpPacket.pcmFrames
        = List.replicate
            (((sbcSourceRun ⟨4, 10, 100, 2, 10000⟩ ⟨0, 0, 0⟩ [4, 4]).2).length) 2 ∧
    0 + 1 < ((sbcSourceRun ⟨4, 10, 100, 2, 10000⟩ ⟨0, 0, 0⟩ [4, 4]).2).length ∧
    (((sbcSourceRun ⟨4, 10, 100, 2, 10000⟩ ⟨0, 0, 0⟩ [4, 4]).2).get
        ⟨0 + 1, by decide⟩).ts
      = ((((sbcSourceRun ⟨4, 10, 100, 2, 10000⟩ ⟨0, 0, 0⟩ [4, 4]).2).get
          ⟨0, by decide⟩).ts + 2 * 10000 / 10000) % 4294967296 :=
  ⟨by decide, by decide,
    a2dp_rtp_timestamp_cadence.1 ⟨4, 10, 100, 2, 10000⟩ ⟨0, 0, 0⟩ [4, 4] 2
      (by decide) 0 (by decide) (by decide)⟩

/-- Ceiling-division bound: `⌈n / m⌉ ≤ j` exactly when `n ≤ j * m`. -/
theorem ceil_div_le_iff (n m j : Nat) (hm : 0 < m) :
    (n + m - 1) / m ≤ j ↔ n ≤ j * m := by
  have hsucc : (j + 1) * m = j * m + m := by ring
  set X := j * m with hX
  constructor
  · intro h
    have h5 : (n + m - 1) / m < j + 1 := Nat.lt_succ_of_le h
    have h6 := (Nat.div_lt_iff_lt_mul hm).mp h5
    rw [hsucc] at h6
    omega
  · intro h
    have h3 : n + m - 1 < (j + 1) * m := by rw [hsucc]; omega
    have h6 := (Nat.div_lt_iff_lt_mul hm).mpr h3
    omega

/-- Indexing a mapped range. -/
theorem get_range_map {α : Type} (f : Nat → α) (k i : Nat)
    (h : i < ((List.range k).map f).length) :
    ((List.range k).map f).get ⟨i, h⟩ = f i := by
  simp

/-- Full characterisation of the AAC fragmentation loop for a positive
payload within the available fuel: the emitted packets are, for
`k = ⌈payload / maxLen⌉` and `i < k`, the packets with sequence number
`(s + i + 1) % 65536`, the shared timestamp, the mark bit set exactly
when the remaining payload `n - i * maxLen` fits in one packet, and
payload length `min (n - i * maxLen) maxLen`. -/
theorem aacFragmentAux_spec (maxLen ts : Nat) (hmax : 0 < maxLen) :
    ∀ (fuel s n : Nat), 0 < n → n ≤ fuel →
    (aacFragmentAux maxLen ts fuel s n).1 =
      (List.range ((n + maxLen - 1) / maxLen)).map
        (fun i => ⟨(s + i + 1) % 65536, ts, decide (n - i * maxLen ≤ maxLen),
          min (n - i * maxLen) maxLen⟩) := by
  intro fuel
  induction fuel with
  | zero => intro s n hn hfuel; omega
  | succ fuel ih =>
    intro s n hn hfuel
    have hunf : aacFragmentAux maxLen ts (fuel + 1) s n =
        if n - min n maxLen = 0
        then ([⟨(s + 1) % 65536, ts, decide (n ≤ maxLen), min n maxLen⟩], (s + 1) % 65536)
        else ((⟨(s + 1) % 65536, ts, decide (n ≤ maxLen), min n maxLen⟩ : AacPacket) ::
                (aacFragmentAux maxLen ts fuel ((s + 1) % 65536) (n - min n maxLen)).1,
              (aacFragmentAux maxLen ts fuel ((s + 1) % 65536) (n - min n maxLen)).2) := by
      rfl
    rw [hunf]
    by_cases h : n - min n maxLen = 0
    · rw [if_pos h]
      have hle : n ≤ maxLen := by omega
      have hk : (n + maxLen - 1) / maxLen = 1 := by
        have h6 := (Nat.div_lt_iff_lt_mul hmax).mpr
          (show n + maxLen - 1 < 2 * maxLen by omega)
        have h7 : 1 ≤ (n + maxLen - 1) / maxLen := by
          rw [Nat.le_div_iff_mul_le hmax]
          omega
        omega
      rw [hk, show List.range 1 = [0] by decide]
      simp
    · rw [if_neg h]
      have hgt : maxLen < n := by omega
      have hmin : min n maxLen = maxLen := by omega
      rw [hmin]
      rw [ih ((s + 1) % 65536) (n - maxLen) (by omega) (by omega)]
      have hk : (n + maxLen - 1) / maxLen = (n - maxLen + maxLen - 1) / maxLen + 1 := by
        have h2 : n + maxLen - 1 = (n - maxLen + maxLen - 1) + maxLen := by omega
        rw [h2, Nat.add_div_right _ hmax]
      rw [hk, List.range_succ_eq_map]
      simp only [List.map_cons, List.map_map]
      congr 1
      · simp
        omega
      · apply List.map_congr_left
        intro i hi
        have e1 : ((s + 1) % 65536 + i + 1) % 65536 = (s + (i + 1) + 1) % 65536 := by
          omega
        have e2 : n - maxLen - i * maxLen = n - (i + 1) * maxLen := by
          rw [Nat.sub_sub]
          congr 1
          ring
        simp [Function.comp, e1, e2]

/-- C5 (counterexample).  The claim states that an oversized LATM payload
is split across RTP packets of equal MTU-sized chunks.  With
`payload_len_max = 2` a 3-byte payload is split into chunks of 2 and 1
bytes, which are not equal: each fragment sends
`min(remaining, payload_len_max)` bytes, so only the fragments before the
last are MTU-sized. -/
theorem aac_fragmentation_counterexample :
    ((aacFragment 2 7 5 3).1).map AacPacket.payloadLen = [2, 1] ∧ (2 : Nat) ≠ 1 := by
  decide

/-- C5 (amended).  When one encoded LATM payload of `n` bytes exceeds
`payload_len_max = mtu_write - RTP_HEADER_LEN = maxLen`, it is split
across `⌈n / maxLen⌉ ≥ 2` RTP packets; every fragment except the last
carries exactly `maxLen` payload bytes and the i-th fragment carries
`min(n - i * maxLen, maxLen)`; the RTP mark bit is set on the final
fragment only; the sequence number is incremented once per fragment
(fragment i carries `(s + i + 1) mod 2^16`); and all fragments carry the
same RTP timestamp. -/
theorem aac_fragmentation_spec (maxLen s ts n : Nat) (hmax : 0 < maxLen)
    (hbig : maxLen < n) :
    2 ≤ ((aacFragment maxLen s ts n).1).length ∧
    ((aacFragment maxLen s ts n).1).length = (n + maxLen - 1) / maxLen ∧
    (∀ i (h : i < ((aacFragment maxLen s ts n).1).length),
      (((aacFragment maxLen s ts n).1).get ⟨i, h⟩).payloadLen
        = min (n - i * maxLen) maxLen) ∧
    (∀ i (h : i < ((aacFragment maxLen s ts n).1).length),
      i + 1 < ((aacFragment maxLen s ts n).1).length →
      (((aacFragment maxLen s ts n).1).get ⟨i, h⟩).payloadLen = maxLen) ∧
    (∀ i (h : i < ((aacFragment maxLen s ts n).1).length),
      ((((aacFragment maxLen s ts n).1).get ⟨i, h⟩).markbit = true
        ↔ i + 1 = ((aacFragment maxLen s ts n).1).length)) ∧
    (∀ i (h : i < ((aacFragment maxLen s ts n).1).length),
      (((aacFragment maxLen s ts n).1).get ⟨i, h⟩).seq = (s + i + 1) % 65536) ∧
    (∀ i (h : i < ((aacFragment maxLen s ts n).1).length),
      (((aacFragment maxLen s ts n).1).get ⟨i, h⟩).ts = ts) := by
  have heq2 : (aacFragment maxLen s ts n).1 =
      (List.range ((n + maxLen - 1) / maxLen)).map
        (fun i => ⟨(s + i + 1) % 65536, ts, decide (n - i * maxLen ≤ maxLen),
          min (n - i * maxLen) maxLen⟩) :=
    aacFragmentAux_spec maxLen ts hmax n s n (by omega) (Nat.le_refl n)
  have hlen : ((aacFragment maxLen s ts n).1).length = (n + maxLen - 1) / maxLen := by
    rw [heq2]
    simp
  have hget : ∀ i (h : i < ((aacFragment maxLen s ts n).1).length),
      ((aacFragment maxLen s ts n).1).get ⟨i, h⟩
        = ⟨(s + i + 1) % 65536, ts, decide (n - i * maxLen ≤ maxLen),
            min (n - i * maxLen) maxLen⟩ := by
    intro i h
    rw [List.get_of_eq heq2 ⟨i, h⟩]
    exact get_range_map _ _ _ _
  refine ⟨?_, hlen, ?_, ?_, ?_, ?_, ?_⟩
  · rw [hlen]
    have h2 : ¬ ((n + maxLen - 1) / maxLen ≤ 1) := by
      rw [ceil_div_le_iff n maxLen 1 hmax]
      omega
    omega
  · intro i h
    rw [hget i h]
  · intro i h hlt
    rw [hget i h]
    rw [hlen] at hlt
    have h3 : ¬ ((n + maxLen - 1) / maxLen ≤ i + 1) := by omega
    rw [ceil_div_le_iff n maxLen (i + 1) hmax] at h3
    have h4 : (i + 1) * maxLen = i * maxLen + maxLen := by ring
    rw [h4] at h3
    exact min_eq_right (by omega)
  · intro i h
    rw [hget i h, hlen]
    have h5 : i < (n + maxLen - 1) / maxLen := by rw [← hlen]; exact h
    have hceil := ceil_div_le_iff n maxLen (i + 1) hmax
    have h4 : (i + 1) * maxLen = i * maxLen + maxLen := by ring
    rw [h4] at hceil
    rw [decide_eq_true_iff]
    constructor
    · intro h6
      have h7 := hceil.mpr (by omega)
      omega
    · intro h6
      have h7 := hceil.mp (by omega)
      omega
  · intro i h
    rw [hget i h]
  · intro i h
    rw [hget i h]

/-- C5 (witness).  A concrete oversized payload: `maxLen = 2`, payload of
5 bytes, starting sequence number 7, timestamp 9. -/
theorem aac_fragmentation_spec_witness :
    0 < 2 ∧ 2 < 5 ∧
    (2 ≤ ((aacFragment 2 7 9 5).1).length ∧
      ((aacFragment 2 7 9 5).1).length = (5 + 2 - 1) / 2 ∧
      (∀ i (h : i < ((aacFragment 2 7 9 5).1).length),
        (((aacFragment 2 7 9 5).1).get ⟨i, h⟩).payloadLen = min (5 - i * 2) 2) ∧
      (∀ i (h : i < ((aacFragment 2 7 9 5).1).length),
        i + 1 < ((aacFragment 2 7 9 5).1).length →
        (((aacFragment 2 7 9 5).1).get ⟨i, h⟩).payloadLen = 2) ∧
      (∀ i (h : i < ((aacFragment 2 7 9 5).1).length),
        ((((aacFragment 2 7 9 5).1).get ⟨i, h⟩).markbit = true
          ↔ i + 1 = ((aacFragment 2 7 9 5).1).length)) ∧
      (∀ i (h : i < ((aacFragment 2 7 9 5).1).length),
        (((aacFragment 2 7 9 5).1).get ⟨i, h⟩).seq = (7 + i + 1) % 65536) ∧
      (∀ i (h : i < ((aacFragment 2 7 9 5).1).length),
        (((aacFragment 2 7 9 5).1).get ⟨i, h⟩).ts = 9)) :=
  ⟨by decide, by decide, aac_fragmentation_spec 2 7 9 5 (by decide) (by decide)⟩

/-- At the maximum A2DP volume (127) with mute off, the scale factor is
exactly `10^0 = 1`. -/
theorem scaleFactor_max : scaleFactor false 127 = 1 := by
  unfold scaleFactor
  have hexp : ((-64 : ℝ) + 64 * ((127 : Nat) : ℝ) / 127) / 20 = 0 := by norm_num
  simp [hexp]

/-- Scaling with both factors equal to one leaves every in-range 16-bit
sample unchanged, from any starting interleave index. -/
theorem scaleSamples_unit (channels : Nat) : ∀ (l : List ℤ) (i : Nat),
    (∀ x ∈ l, -32768 ≤ x ∧ x ≤ 32767) →
    scaleSamples channels 1 1 i l = l := by
  intro l
  induction l with
  | nil => intro i _; rfl
  | cons x rest ih =>
    intro i hb
    have hx := hb x (by simp)
    show satS16 ⌊(if i % channels = 0 then (1 : ℝ) else 1) * (x : ℝ)⌋ ::
      scaleSamples channels 1 1 (i + 1) rest = x :: rest
    have h1 : (if i % channels = 0 then (1 : ℝ) else 1) = 1 := by
      split <;> rfl
    rw [h1, one_mul, Int.floor_intCast, ih (i + 1) (fun y hy => hb y (by simp [hy]))]
    congr 1
    unfold satS16
    rw [min_eq_right hx.2, max_eq_right hx.1]

/-- C6.  With both channel volumes at the A2DP maximum (127) and neither
channel muted, `io_thread_scale_pcm` leaves every sample of a 16-bit
signed PCM buffer unchanged: the per-channel factor is
`10^((-64 + 64*127/127)/20) = 10^0 = 1` and saturation does not fire on
in-range samples. -/
theorem io_thread_scale_pcm_unit (buffer : List ℤ) (channels : Nat)
    (h : ∀ x ∈ buffer, -32768 ≤ x ∧ x ≤ 32767) :
    io_thread_scale_pcm false 127 false 127 buffer channels = buffer := by
  unfold io_thread_scale_pcm snd_pcm_scale_s16le
  rw [scaleFactor_max]
  exact scaleSamples_unit channels buffer 0 h

/-- C6 (witness).  A concrete buffer including both 16-bit extremes is
unchanged by scaling at maximum volume. -/
theorem io_thread_scale_pcm_unit_witness :
    (∀ x ∈ ([-32768, 0, 1000, 32767] : List ℤ), -32768 ≤ x ∧ x ≤ 32767) ∧
    io_thread_scale_pcm false 127 false 127 [-32768, 0, 1000, 32767] 2
      = [-32768, 0, 1000, 32767] :=
  ⟨by decide, io_thread_scale_pcm_unit [-32768, 0, 1000, 32767] 2 (by decide)⟩

/-- C8 (counterexample).  The claim states that `Open` on an endpoint
whose fd is not `-1` fails with the EBUSY error.  On an SCO transport
whose HFP codec is still undefined, `Open("source")` selects the speaker
endpoint (fd = 5 ≠ -1) but fails earlier with "HFP audio codec not
selected" (bluealsa-dbus.c lines 239-243), not with the busy error. -/
theorem bluealsa_pcm_open_busy_counterexample :
    (bluealsa_pcm_open ⟨.hfpAg, .undefined, -1, 5, -1⟩ BLUEALSA_PCM_MODE_SOURCE
        ⟨none, none, true, true⟩).reply = OpenReply.codecNotSelected ∧
    OpenReply.codecNotSelected ≠ OpenReply.busy ∧
    pcmFdOf ⟨.hfpAg, .undefined, -1, 5, -1⟩ PcmSel.spk = 5 ∧ (5 : Int) ≠ -1 := by
  decide

/-- C8 (amended).  If `Open` is called with a valid mode that resolves to
a PCM endpoint (for SCO transports this requires the HFP codec to be
selected, otherwise the call fails earlier with the codec-not-selected
error) and that endpoint's FIFO fd is not `-1`, then the call fails with
the well-known busy error (`strerror(EBUSY)`) and nothing is observably
modified: the transport state is exactly as before, no fd is created or
closed, and no transport signal is sent. -/
theorem bluealsa_pcm_open_busy_spec (t : BaTransportState) (mode : List Nat)
    (env : OpenEnv) (sel : PcmSel)
    (hmode : mode = BLUEALSA_PCM_MODE_SOURCE ∨ mode = BLUEALSA_PCM_MODE_SINK)
    (hsel : bluealsa_pcm_select t (mode == BLUEALSA_PCM_MODE_SOURCE) = Except.ok sel)
    (hfd : pcmFdOf t sel ≠ -1) :
    bluealsa_pcm_open t mode env = ⟨OpenReply.busy, t, [], [], []⟩ := by
  rcases hmode with rfl | rfl
  · have hb : (BLUEALSA_PCM_MODE_SOURCE == BLUEALSA_PCM_MODE_SOURCE) = true := by decide
    rw [hb] at hsel
    simp [bluealsa_pcm_open, bluealsa_pcm_open_withPcm, hb, hsel, hfd]
  · have hb : (BLUEALSA_PCM_MODE_SINK == BLUEALSA_PCM_MODE_SOURCE) = false := by decide
    have hb2 : (BLUEALSA_PCM_MODE_SINK != BLUEALSA_PCM_MODE_SINK) = false := by decide
    rw [hb] at hsel
    simp [bluealsa_pcm_open, bluealsa_pcm_open_withPcm, hb, hb2, hsel, hfd]

/-- C8 (witness).  A concrete busy call: an A2DP source transport whose
endpoint fd is 3, opened again in source mode. -/
theorem bluealsa_pcm_open_busy_spec_witness :
    (BLUEALSA_PCM_MODE_SOURCE = BLUEALSA_PCM_MODE_SOURCE ∨
      BLUEALSA_PCM_MODE_SOURCE = BLUEALSA_PCM_MODE_SINK) ∧
    bluealsa_pcm_select ⟨.a2dpSource, .undefined, 3, -1, -1⟩
      (BLUEALSA_PCM_MODE_SOURCE == BLUEALSA_PCM_MODE_SOURCE) = Except.ok PcmSel.a2dp ∧
    pcmFdOf ⟨.a2dpSource, .undefined, 3, -1, -1⟩ PcmSel.a2dp ≠ -1 ∧
    bluealsa_pcm_open ⟨.a2dpSource, .undefined, 3, -1, -1⟩ BLUEALSA_PCM_MODE_SOURCE
        ⟨none, none, true, true⟩
      = ⟨OpenReply.busy, ⟨.a2dpSource, .undefined, 3, -1, -1⟩, [], [], []⟩ :=
  ⟨Or.inl rfl, rfl, by decide,
    bluealsa_pcm_open_busy_spec ⟨.a2dpSource, .undefined, 3, -1, -1⟩
      BLUEALSA_PCM_MODE_SOURCE ⟨none, none, true, true⟩ PcmSel.a2dp
      (Or.inl rfl) rfl (by decide)⟩

/-- Every error path of the fd-creating continuation closes exactly the
fds it created. -/
theorem withPcm_error_closes (t : BaTransportState) (isSource : Bool) (sel : PcmSel)
    (env : OpenEnv)
    (h : ((bluealsa_pcm_open_withPcm t isSource sel env).reply).isSuccess = false) :
    ∀ fd ∈ (bluealsa_pcm_open_withPcm t isSource sel env).createdFds,
      fd ∈ (bluealsa_pcm_open_withPcm t isSource sel env).closedFds := by
  intro fd hfd
  by_cases hbusy : (pcmFdOf t sel != -1) = true
  · simp [bluealsa_pcm_open_withPcm, hbusy] at hfd
  · rcases env with ⟨pf, sf, fo, ao⟩
    rcases pf with _ | ⟨p0, p1⟩
    · simp [bluealsa_pcm_open_withPcm, hbusy] at hfd
    · rcases sf with _ | ⟨s2, s3⟩
      · simp [bluealsa_pcm_open_withPcm, hbusy] at hfd ⊢
        exact hfd
      · cases fo with
        | false =>
          simp [bluealsa_pcm_open_withPcm, hbusy] at hfd ⊢
          exact hfd
        | true =>
          by_cases hacq : (t.profile == BaProfile.a2dpSource && !ao) = true
          · simp [bluealsa_pcm_open_withPcm, hbusy, hacq] at hfd ⊢
            exact hfd
          · exfalso
            simp [bluealsa_pcm_open_withPcm, hbusy, hacq, OpenReply.isSuccess] at h

/-- C10.  Whenever `bluealsa_pcm_open` returns an error reply (invalid
mode, codec not selected, unsupported mode, busy endpoint,
pipe/socketpair creation failure, non-blocking setup failure, or
A2DP-source acquire failure), every file descriptor created during the
call has been closed before the method returns. -/
theorem bluealsa_pcm_open_error_closes_fds (t : BaTransportState) (mode : List Nat)
    (env : OpenEnv)
    (h : ((bluealsa_pcm_open t mode env).reply).isSuccess = false) :
    ∀ fd ∈ (bluealsa_pcm_open t mode env).createdFds,
      fd ∈ (bluealsa_pcm_open t mode env).closedFds := by
  intro fd hfd
  simp only [bluealsa_pcm_open] at h hfd ⊢
  by_cases hg : (!(mode == BLUEALSA_PCM_MODE_SOURCE)
      && mode != BLUEALSA_PCM_MODE_SINK) = true
  · rw [if_pos hg] at hfd
    simp at hfd
  · rw [if_neg hg] at h hfd ⊢
    cases hsel : bluealsa_pcm_select t (mode == BLUEALSA_PCM_MODE_SOURCE) with
    | error e =>
      rw [hsel] at hfd
      simp at hfd
    | ok sel =>
      rw [hsel] at h hfd
      exact withPcm_error_closes t _ sel env h fd hfd

/-- C10 (witness).  A concrete failing call: `pipe2` yields fds 3 and 4,
then `socketpair` fails; both pipe fds are closed before the error
return. -/
theorem bluealsa_pcm_open_error_closes_fds_witness :
    ((bluealsa_pcm_open ⟨.a2dpSource, .undefined, -1, -1, -1⟩ BLUEALSA_PCM_MODE_SOURCE
        ⟨some (3, 4), none, true, true⟩).reply).isSuccess = false ∧
    ∀ fd ∈ (bluealsa_pcm_open ⟨.a2dpSource, .undefined, -1, -1, -1⟩
        BLUEALSA_PCM_MODE_SOURCE ⟨some (3, 4), none, true, true⟩).createdFds,
      fd ∈ (bluealsa_pcm_open ⟨.a2dpSource, .undefined, -1, -1, -1⟩
        BLUEALSA_PCM_MODE_SOURCE ⟨some (3, 4), none, true, true⟩).closedFds :=
  ⟨by decide,
    bluealsa_pcm_open_error_closes_fds ⟨.a2dpSource, .undefined, -1, -1, -1⟩
      BLUEALSA_PCM_MODE_SOURCE ⟨some (3, 4), none, true, true⟩ (by decide)⟩
